import Mathlib

/-!
Verification of the chapter-statistics and search logic of the scholars-map
dashboard (`src/app.py`).  Strings are embedded as `List Char`; the Python
string primitives used by the code (`str.count`, `str.replace`, `str.split`,
`str.strip`, `re.split` with the zero-width pattern `(?=\*[^\n]+)`) are
translated as executable Lean functions below.
-/

/-- Characters treated as whitespace by Python's `str.strip()` (the set for
which `str.isspace()` holds). -/
def isPySpace (c : Char) : Bool :=
  c == ' ' || c == '\t' || c == '\n' || c == '\r' || c == '\x0b' || c == '\x0c' ||
  c == '\x1c' || c == '\x1d' || c == '\x1e' || c == '\x1f' || c == '\x85' || c == '\xa0' ||
  c == '\u1680' || ('\u2000' ≤ c && c ≤ '\u200a') || c == '\u2028' || c == '\u2029' ||
  c == '\u202f' || c == '\u205f' || c == '\u3000'

/-- Python `s.strip()`: drop leading and trailing whitespace. -/
def pyStrip (s : List Char) : List Char :=
  ((s.dropWhile isPySpace).reverse.dropWhile isPySpace).reverse

/-- The zero-width regex `(?=\*[^\n]+)` of `app.py` line 105 matches at the
head of `l` iff `l` starts with `*` followed by at least one non-newline
character. -/
def isMarkerAt : List Char → Bool
  | '*' :: c :: _ => c != '\n'
  | _ => false

/-- `re.split(r'(?=\*[^\n]+)', text)`: scan left to right, cutting before
every position where the lookahead matches.  `acc` holds the current segment
reversed. -/
def reSplitAux : List Char → List Char → List (List Char)
  | acc, [] => [acc.reverse]
  | acc, c :: rest =>
    if isMarkerAt (c :: rest) then acc.reverse :: reSplitAux [c] rest
    else reSplitAux (c :: acc) rest

/-- The segmentation performed by `process_chapter_stats` (line 105). -/
def reSplit (text : List Char) : List (List Char) :=
  reSplitAux [] text

/-- All indices of `text` at which the lookahead `(?=\*[^\n]+)` matches. -/
def markerPositions : List Char → List Nat
  | [] => []
  | c :: rest =>
    if isMarkerAt (c :: rest) then 0 :: (markerPositions rest).map (· + 1)
    else (markerPositions rest).map (· + 1)

/-- Start offsets (in the concatenation) of every segment after the first. -/
def tailStarts : List (List Char) → List Nat
  | [] => []
  | [_] => []
  | s :: r :: rest => s.length :: (tailStarts (r :: rest)).map (· + s.length)

/-- Pair each segment with its start offset in the concatenation. -/
def withStarts : Nat → List (List Char) → List (Nat × List Char)
  | _, [] => []
  | n, s :: rest => (n, s) :: withStarts (n + s.length) rest

/-- Cut `text` at an increasing list of absolute positions, `prev` being the
start of the current segment. -/
def cutAtAux (text : List Char) (prev : Nat) : List Nat → List (List Char)
  | [] => [text.drop prev]
  | p :: ps => (text.drop prev).take (p - prev) :: cutAtAux text p ps

/-- Cut `text` at an increasing list of positions. -/
def cutAt (text : List Char) (ps : List Nat) : List (List Char) :=
  cutAtAux text 0 ps

/-- Marker positions that begin a line: offset 0 or preceded by a newline. -/
def lineStartMarkerPositions (text : List Char) : List Nat :=
  (markerPositions text).filter (fun i => i == 0 || text.get? (i - 1) == some '\n')

/-- Modelled from the spec: "segment the text wherever a line begins with a
chapter-title marker (a recognized leading symbol followed by non-newline
content)".  The code's segmentation is compared with this one. -/
def specLineAnchoredSegments (text : List Char) : List (List Char) :=
  cutAt text (lineStartMarkerPositions text)

/-- Python `s.count(pat)` for nonempty `pat`: left-to-right non-overlapping
occurrences.  After a match the next `pat.length - 1` characters (the rest of
the matched slice) are skipped via the cooldown counter. -/
def pyCountAux (pat : List Char) : Nat → List Char → Nat
  | _, [] => 0
  | 0, c :: rest =>
    if pat.isPrefixOf (c :: rest) then 1 + pyCountAux pat (pat.length - 1) rest
    else pyCountAux pat 0 rest
  | k + 1, _ :: rest => pyCountAux pat k rest

/-- Python `s.count(pat)` (an empty pattern counts `len(s) + 1` slots). -/
def pyCount (s pat : List Char) : Nat :=
  if pat.isEmpty then s.length + 1 else pyCountAux pat 0 s

/-- One entry of `LOCATIONS_DB` (app.py lines 61-74). -/
structure Location where
  name : String
  aliases : List String
deriving DecidableEq

/-- The static location dictionary of app.py lines 61-74. -/
def LOCATIONS_DB : List Location :=
  [{ name := "Hangzhou",
     aliases := ["杭州", "杭城", "西湖", "省城", "武林", "錢塘", "斷河頭", "清波門", "仁和",
                 "錢塘門", "靈隱", "天竺", "蘇堤", "雷峰", "淨慈", "城隍山", "吳山"] },
   { name := "Huzhou", aliases := ["湖州", "鶯脰湖", "新市鎮", "雙林", "婁府", "烏程"] },
   { name := "Beijing",
     aliases := ["北京", "京師", "京裏", "京城", "都門", "魏闕", "長安", "順天府", "內廷",
                 "入京", "進京"] },
   { name := "Nanjing", aliases := ["南京", "金陵", "白下", "建康", "應天"] },
   { name := "Yangzhou", aliases := ["揚州", "廣陵", "維揚", "江都"] },
   { name := "Jinan", aliases := ["濟南", "歷下"] },
   { name := "Suzhou", aliases := ["蘇州", "姑蘇", "吳門", "平江"] },
   { name := "Wenzhou", aliases := ["溫州", "樂清"] },
   { name := "Shaoxing", aliases := ["紹興", "會稽", "越城"] }]

/-- One chapter record (the `row` dict built at app.py lines 113-118):
the short chapter label, the full title, and one count entry per location. -/
structure Row where
  chapter : List Char
  full_title : List Char
  counts : List (String × Nat)
deriving DecidableEq

/-- The body of the loop of `process_chapter_stats` for one segment:
`lines[0]`, `replace('*','')`, `strip()`, the short-title heuristic, then one
`chapter.count(alias)` sum per location. -/
def mkRow (chapter : List Char) : Row :=
  let firstLine := chapter.takeWhile (fun c => c != '\n')
  let title := pyStrip (firstLine.filter (fun c => c != '*'))
  let short_title := if title.contains ' ' then title.takeWhile (fun c => c != ' ')
                     else title.take 6
  { chapter := short_title
    full_title := title
    counts := LOCATIONS_DB.map fun loc =>
      (loc.name, loc.aliases.foldl (fun c a => c + pyCount chapter a.toList) 0) }

/-- The `for chapter in chapters` loop of `process_chapter_stats`:
segments whose `strip()` is empty are skipped (`continue`), every other
segment contributes one row. -/
def processSegments : List (List Char) → List Row
  | [] => []
  | seg :: rest =>
    if (pyStrip seg).isEmpty then processSegments rest
    else mkRow seg :: processSegments rest

/-- `process_chapter_stats` (app.py lines 102-120). -/
def process_chapter_stats (text : List Char) : List Row :=
  processSegments (reSplit text)

/-- Python `s.replace(pat, '')` for nonempty `pat`: remove the left-to-right
non-overlapping occurrences of `pat`.  The cooldown counter skips the rest of
a matched slice. -/
def pyRemoveAux (pat : List Char) : Nat → List Char → List Char
  | _, [] => []
  | 0, c :: rest =>
    if pat.isPrefixOf (c :: rest) then pyRemoveAux pat (pat.length - 1) rest
    else c :: pyRemoveAux pat 0 rest
  | k + 1, _ :: rest => pyRemoveAux pat k rest

/-- Python `s.replace(pat, '')` (replacing an empty pattern by `''` is the
identity). -/
def pyRemove (pat s : List Char) : List Char :=
  if pat.isEmpty then s else pyRemoveAux pat 0 s

/-- Python `s.split(sep)` for a nonempty separator: cut at each left-to-right
non-overlapping occurrence of `sep`, dropping the separator.  `acc` holds the
current piece reversed; the cooldown counter skips the rest of a matched
separator. -/
def pySplitAux (pat : List Char) : Nat → List Char → List Char → List (List Char)
  | _, acc, [] => [acc.reverse]
  | 0, acc, c :: rest =>
    if pat.isPrefixOf (c :: rest) then acc.reverse :: pySplitAux pat (pat.length - 1) [] rest
    else pySplitAux pat 0 (c :: acc) rest
  | k + 1, acc, _ :: rest => pySplitAux pat k acc rest

/-- Python `s.split(sep)` (Python raises on an empty separator; the code only
splits on the nonempty separators `"\\n"` and `"\n"`). -/
def pySplit (pat s : List Char) : List (List Char) :=
  if pat.isEmpty then [s] else pySplitAux pat 0 [] s

/-- The paragraph list of the keyword-search panel (app.py lines 281-282):
split on the literal two-character sequence backslash-`n` after removing
literal backslash-`r` pairs; fall back to splitting on real newlines when the
first split yields fewer than two pieces. -/
def searchParagraphs (full_text : List Char) : List (List Char) :=
  let ps := pySplit ['\\', 'n'] (pyRemove ['\\', 'r'] full_text)
  if ps.length < 2 then pySplit ['\n'] full_text else ps

/-- Python's substring test `pat in s`: `pat` occurs contiguously in `s`. -/
def pyContains (pat : List Char) : List Char → Bool
  | [] => pat.isEmpty
  | c :: rest => pat.isPrefixOf (c :: rest) || pyContains pat rest

/-- The display loop of the keyword-search panel (app.py lines 283-289):
collect the paragraphs containing the search term, stopping once the counter
reaches 3. -/
def searchLoop (term : List Char) : Nat → List (List Char) → List (List Char)
  | _, [] => []
  | count, p :: ps =>
    if pyContains term p then
      if count + 1 ≥ 3 then [p] else p :: searchLoop term (count + 1) ps
    else searchLoop term count ps

/-- The paragraphs the keyword-search panel displays for a search term. -/
def searchResults (full_text term : List Char) : List (List Char) :=
  searchLoop term 0 (searchParagraphs full_text)

/-- The warning of app.py line 290. -/
def noMatchMsg : String :=
  "No relevant content found."

/-- The keyword-search panel (app.py lines 280-290): outside the guard
`if search_term:` nothing is rendered; otherwise the matching paragraphs are
shown, with the warning when the counter stayed at 0. -/
def searchPanel (full_text term : List Char) : List (List Char) × Option String :=
  if term.isEmpty then ([], none)
  else
    let r := searchResults full_text term
    (r, if r.isEmpty then some noMatchMsg else none)

/-- The files the app reads, as an abstract disk: a field is `none` when
`os.path.exists` is false for that path.  `M` is the parsed CSV table and `C`
the parsed spreadsheet, both opaque to the claims. -/
structure Disk (M C : Type) where
  locations_csv : Option M
  txt_file : Option (List Char)
  chapter_info : Option C

/-- `load_map_data` (app.py lines 79-81): `None` when the CSV is absent. -/
def load_map_data {M C : Type} (d : Disk M C) : Option M :=
  d.locations_csv

/-- `load_text_data` (app.py lines 85-88): `None` when the text is absent. -/
def load_text_data {M C : Type} (d : Disk M C) : Option (List Char) :=
  d.txt_file

/-- `load_chapter_info` (app.py lines 92-99): `None` when the sheet is
absent. -/
def load_chapter_info {M C : Type} (d : Disk M C) : Option C :=
  d.chapter_info

/-- Outcome of the module-level flow of app.py lines 124-133: either the view
halts at `st.stop()` with the error shown, or the panels render, with
`df_stats` computed. -/
inductive AppResult (M C : Type) where
  | halted (errorShown : String)
  | rendered (df_map : M) (full_text : List Char) (df_info : Option C) (df_stats : List Row)
deriving DecidableEq

/-- The error of app.py line 130. -/
def missingFilesMsg : String :=
  "❌ Missing basic data files. Please check if csv and txt files are uploaded to the GitHub repository."

/-- app.py lines 124-133: run the loaders; when the CSV table or the text is
missing, show the error and stop before `process_chapter_stats`. -/
def appMain {M C : Type} (d : Disk M C) : AppResult M C :=
  match load_map_data d, load_text_data d with
  | some m, some t => .rendered m t (load_chapter_info d) (process_chapter_stats t)
  | _, _ => .halted missingFilesMsg

-- sanity examples (spec example of section 8)
example : reSplit ("x *B".toList) = [("x ".toList), ("*B".toList)] := by decide
example : specLineAnchoredSegments ("x *B".toList) = [("x *B".toList)] := by decide
example : pyCount ("aaaa".toList) ("aa".toList) = 2 := by decide
example :
    (process_chapter_stats ("*Ch1 Title\nHe went to 西湖 today.\n*Ch2 Title\nNo mention here.\n".toList)).map
      (fun r => List.lookup "Hangzhou" r.counts) = [some 1, some 0] := by decide
example : searchParagraphs ("a\\nb\\nc".toList) = [['a'], ['b'], ['c']] := by decide
example : searchParagraphs ("a\nb".toList) = [['a'], ['b']] := by decide
example : searchResults ("p1 x\np2 x\np3 x\np4 x".toList) (['x']) =
    [("p1 x".toList), ("p2 x".toList), ("p3 x".toList)] := by decide

/-! ### Helper lemmas about the segmentation -/

theorem reSplitAux_ne_nil (s acc : List Char) : reSplitAux acc s ≠ [] := by
  induction s generalizing acc with
  | nil => simp [reSplitAux]
  | cons c rest ih =>
    simp only [reSplitAux]
    split
    · simp
    · exact ih _

theorem reSplitAux_join (s acc : List Char) :
    (reSplitAux acc s).flatten = acc.reverse ++ s := by
  induction s generalizing acc with
  | nil => simp [reSplitAux]
  | cons c rest ih =>
    simp only [reSplitAux]
    split
    · simp [ih]
    · simp [ih]

theorem tailStarts_reSplitAux (s acc : List Char) :
    tailStarts (reSplitAux acc s) = (markerPositions s).map (· + acc.length) := by
  induction s generalizing acc with
  | nil => simp [reSplitAux, tailStarts, markerPositions]
  | cons c rest ih =>
    simp only [reSplitAux, markerPositions]
    split
    · obtain ⟨y, ys, hys⟩ := List.exists_cons_of_ne_nil (reSplitAux_ne_nil rest [c])
      rw [hys]
      simp only [tailStarts]
      rw [← hys, ih]
      simp [List.map_map, Function.comp_def, Nat.add_comm, Nat.add_assoc, Nat.add_left_comm]
    · rw [ih]
      simp [List.map_map, Function.comp_def, Nat.add_comm, Nat.add_assoc, Nat.add_left_comm]

theorem processSegments_eq_filter (segs : List (List Char)) :
    processSegments segs = (segs.filter (fun s => !(pyStrip s).isEmpty)).map mkRow := by
  induction segs with
  | nil => rfl
  | cons s rest ih =>
    simp only [processSegments, List.filter_cons]
    cases h : (pyStrip s).isEmpty <;> simp [h, ih]

theorem process_eq_filter (text : List Char) :
    process_chapter_stats text =
      ((reSplit text).filter (fun s => !(pyStrip s).isEmpty)).map mkRow :=
  processSegments_eq_filter (reSplit text)

/-! ### Claim theorems -/

/-- **C2, amended.** `process_chapter_stats` segments the text at *every*
position where `*` is followed by at least one non-newline character, whether
or not that position begins a line: the segments concatenate back to the
original text, and the start offsets of all segments after the first are
exactly the positions where the lookahead `(?=\*[^\n]+)` matches. -/
theorem C2_marker_segmentation (text : List Char) :
    (reSplit text).flatten = text ∧ tailStarts (reSplit text) = markerPositions text := by
  refine ⟨?_, ?_⟩
  · simpa using reSplitAux_join text []
  · simpa using tailStarts_reSplitAux text []

/-- **C2, counterexample.** In `"x *B"` the only `*` occurs mid-line, yet the
code starts a new segment there (producing two records), whereas segmentation
at line-beginning markers — the claim as stated — keeps the text in one
piece. -/
theorem C2_counterexample :
    reSplit ("x *B".toList) ≠ specLineAnchoredSegments ("x *B".toList) ∧
    reSplit ("x *B".toList) = [("x ".toList), ("*B".toList)] ∧
    specLineAnchoredSegments ("x *B".toList) = [("x *B".toList)] ∧
    (process_chapter_stats ("x *B".toList)).length = 2 := by decide

/-- **C4.** On the spec's example corpus, `process_chapter_stats` produces
exactly two chapter records, with Hangzhou count 1 in the first and 0 in the
second. -/
theorem C4_example :
    (process_chapter_stats
        ("*Ch1 Title\nHe went to 西湖 today.\n*Ch2 Title\nNo mention here.\n".toList)).length = 2 ∧
    (process_chapter_stats
        ("*Ch1 Title\nHe went to 西湖 today.\n*Ch2 Title\nNo mention here.\n".toList)).map
      (fun r => List.lookup "Hangzhou" r.counts) = [some 1, some 0] := by decide

/-- **C7.** A segment that is empty or whitespace-only never produces a
chapter record: the records are exactly the rows of the segments whose
`strip()` is nonempty, in order. -/
theorem C7_whitespace_segments_skipped (text : List Char) :
    process_chapter_stats text =
      ((reSplit text).filter (fun s => !(pyStrip s).isEmpty)).map mkRow :=
  process_eq_filter text

/-- **C3, amended.** The unmatched prefix is dropped only when it is empty or
whitespace-only; a prefix with non-whitespace content produces the first
chapter record itself. -/
theorem C3_nonwhitespace_prefix_produces_record (text : List Char)
    (h : (pyStrip ((reSplit text).headD [])).isEmpty = false) :
    (process_chapter_stats text).head? = some (mkRow ((reSplit text).headD [])) := by
  obtain ⟨s, rest, heq⟩ : ∃ s rest, reSplit text = s :: rest :=
    List.exists_cons_of_ne_nil (reSplitAux_ne_nil text [])
  unfold process_chapter_stats
  rw [heq] at h ⊢
  simp only [List.headD_cons] at h ⊢
  simp [processSegments, h]

theorem C3_amended_witness :
    (pyStrip ((reSplit ("Hello\n*C x\n".toList)).headD [])).isEmpty = false ∧
    (process_chapter_stats ("Hello\n*C x\n".toList)).head? =
      some (mkRow ((reSplit ("Hello\n*C x\n".toList)).headD [])) :=
  ⟨by decide, C3_nonwhitespace_prefix_produces_record _ (by decide)⟩

/-- **C3, counterexample.** The corpus `"Hello\n*C x\n"` has the non-empty
unmatched prefix `"Hello\n"`, and — contrary to the claim — that prefix
produces a chapter record of its own: the first of the two records, titled
`"Hello"`. -/
theorem C3_counterexample :
    (process_chapter_stats ("Hello\n*C x\n".toList)).length = 2 ∧
    (process_chapter_stats ("Hello\n*C x\n".toList)).map (fun r => r.full_title) =
      [("Hello".toList), ("C x".toList)] := by decide

theorem withStarts_le (segs : List (List Char)) (n : Nat) :
    ∀ p ∈ withStarts n segs, n ≤ p.1 := by
  induction segs generalizing n with
  | nil => simp [withStarts]
  | cons s rest ih =>
    intro p hp
    simp only [withStarts, List.mem_cons] at hp
    rcases hp with rfl | hp
    · exact le_rfl
    · exact le_trans (Nat.le_add_right _ _) (ih _ _ hp)

theorem processSegments_withStarts (segs : List (List Char)) (n : Nat) :
    ((withStarts n segs).filter (fun p => !(pyStrip p.2).isEmpty)).map (fun p => mkRow p.2) =
      (segs.filter (fun s => !(pyStrip s).isEmpty)).map mkRow := by
  induction segs generalizing n with
  | nil => rfl
  | cons s rest ih =>
    simp only [withStarts, List.filter_cons]
    cases h : (pyStrip s).isEmpty <;> simp [h, ih]

theorem kept_starts_chain (segs : List (List Char)) (n : Nat) :
    List.Chain' (fun a b => a.1 < b.1)
      ((withStarts n segs).filter (fun p => !(pyStrip p.2).isEmpty)) := by
  induction segs generalizing n with
  | nil => simp [withStarts]
  | cons s rest ih =>
    simp only [withStarts, List.filter_cons]
    cases h : (pyStrip s).isEmpty
    · simp only [Bool.not_false, if_pos]
      rw [List.chain'_cons']
      refine ⟨?_, ih (n + s.length)⟩
      intro b hb
      have hmem : b ∈ withStarts (n + s.length) rest :=
        List.mem_of_mem_filter (List.mem_of_mem_head? hb)
      have h1 : n + s.length ≤ b.1 := withStarts_le _ _ _ hmem
      have hs : s ≠ [] := by
        intro hnil
        subst hnil
        simp [pyStrip] at h
      have h2 : 0 < s.length := List.length_pos.mpr hs
      simp only []
      omega
    · simpa using ih (n + s.length)

/-- **C6.** Chapter records preserve source order: the records are the rows
of the kept segments paired with their start offsets in the original text,
and those offsets strictly increase from each record to the next. -/
theorem C6_source_order (text : List Char) :
    process_chapter_stats text =
      ((withStarts 0 (reSplit text)).filter (fun p => !(pyStrip p.2).isEmpty)).map
        (fun p => mkRow p.2) ∧
    List.Chain' (fun a b => a.1 < b.1)
      ((withStarts 0 (reSplit text)).filter (fun p => !(pyStrip p.2).isEmpty)) := by
  refine ⟨?_, kept_starts_chain _ 0⟩
  rw [process_eq_filter text, processSegments_withStarts]

theorem foldl_add_sum (f : String → Nat) (l : List String) (n : Nat) :
    l.foldl (fun c a => c + f a) n = n + (l.map f).sum := by
  induction l generalizing n with
  | nil => simp
  | cons a l ih => simp [ih, Nat.add_assoc]

theorem lookup_map_name (g : Location → Nat) (l : List Location)
    (hnodup : (l.map Location.name).Nodup) :
    ∀ loc ∈ l, List.lookup loc.name (l.map fun x => (x.name, g x)) = some (g loc) := by
  induction l with
  | nil => simp
  | cons x l ih =>
    simp only [List.map_cons, List.nodup_cons] at hnodup
    intro loc hloc
    rcases List.mem_cons.mp hloc with rfl | hmem
    · simp [List.lookup]
    · have hne : loc.name ≠ x.name := by
        intro he
        exact hnodup.1 (he ▸ List.mem_map_of_mem Location.name hmem)
      simp only [List.map_cons, List.lookup, beq_eq_false_iff_ne.mpr hne]
      exact ih hnodup.2 loc hmem

theorem mkRow_counts (seg : List Char) :
    (mkRow seg).counts =
      LOCATIONS_DB.map fun x =>
        (x.name, x.aliases.foldl (fun c a => c + pyCount seg a.toList) 0) := rfl

/-- **C5.** Every chapter record carries exactly one count key per location:
its count keys are exactly the names of `LOCATIONS_DB`, in order. -/
theorem C5_count_keys (text : List Char) (row : Row)
    (h : row ∈ process_chapter_stats text) :
    row.counts.map Prod.fst = LOCATIONS_DB.map Location.name := by
  rw [process_eq_filter] at h
  obtain ⟨seg, _, rfl⟩ := List.mem_map.mp h
  rw [mkRow_counts]
  simp [List.map_map]

theorem C5_count_keys_witness :
    mkRow ("*A 杭州\n".toList) ∈ process_chapter_stats ("*A 杭州\n".toList) ∧
    (mkRow ("*A 杭州\n".toList)).counts.map Prod.fst = LOCATIONS_DB.map Location.name :=
  ⟨by decide, C5_count_keys (("*A 杭州\n").toList) (mkRow (("*A 杭州\n").toList)) (by decide)⟩

/-- **C1.** Every chapter record comes from one segment of the split, and the
count it records under each location's name is the sum, over that location's
aliases, of the left-to-right non-overlapping occurrence counts of the alias
in that segment's exact text. -/
theorem C1_counts_are_alias_sums (text : List Char) (row : Row)
    (h : row ∈ process_chapter_stats text) :
    ∃ seg ∈ reSplit text, row = mkRow seg ∧
      ∀ loc ∈ LOCATIONS_DB,
        List.lookup loc.name row.counts =
          some ((loc.aliases.map fun a => pyCount seg a.toList).sum) := by
  rw [process_eq_filter] at h
  obtain ⟨seg, hseg, rfl⟩ := List.mem_map.mp h
  refine ⟨seg, List.mem_of_mem_filter hseg, rfl, ?_⟩
  intro loc hloc
  have hnodup : (LOCATIONS_DB.map Location.name).Nodup := by decide
  rw [mkRow_counts,
    lookup_map_name (fun x => x.aliases.foldl (fun c a => c + pyCount seg a.toList) 0)
      LOCATIONS_DB hnodup loc hloc, foldl_add_sum]
  simp

theorem C1_counts_are_alias_sums_witness :
    ∃ seg ∈ reSplit ("*A 杭州\n".toList), mkRow ("*A 杭州\n".toList) = mkRow seg ∧
      ∀ loc ∈ LOCATIONS_DB,
        List.lookup loc.name (mkRow ("*A 杭州\n".toList)).counts =
          some ((loc.aliases.map fun a => pyCount seg a.toList).sum) :=
  C1_counts_are_alias_sums (("*A 杭州\n").toList) (mkRow (("*A 杭州\n").toList)) (by decide)

/-! ### Helper lemmas about the keyword search -/

theorem searchLoop_length (term : List Char) (ps : List (List Char)) :
    ∀ count, count < 3 → (searchLoop term count ps).length ≤ 3 - count := by
  induction ps with
  | nil => intro count _; simp [searchLoop]
  | cons p ps ih =>
    intro count hc
    simp only [searchLoop]
    split
    · split
      · next h3 => simp only [List.length_cons, List.length_nil]; omega
      · next h3 =>
        simp only [List.length_cons]
        have := ih (count + 1) (by omega)
        omega
    · exact ih count hc

theorem searchLoop_sublist (term : List Char) (ps : List (List Char)) :
    ∀ count, (searchLoop term count ps).Sublist ps := by
  induction ps with
  | nil => intro count; simp [searchLoop]
  | cons p ps ih =>
    intro count
    simp only [searchLoop]
    split
    · split
      · exact (List.nil_sublist ps).cons₂ p
      · exact (ih (count + 1)).cons₂ p
    · exact (ih count).cons p

theorem searchLoop_mem_contains (term : List Char) (ps : List (List Char)) :
    ∀ count p, p ∈ searchLoop term count ps → pyContains term p = true := by
  induction ps with
  | nil => intro count p hp; simp [searchLoop] at hp
  | cons q ps ih =>
    intro count p hp
    simp only [searchLoop] at hp
    split at hp
    · next hq =>
      split at hp
      · rw [List.mem_singleton] at hp
        subst hp
        exact hq
      · rcases List.mem_cons.mp hp with rfl | hp'
        · exact hq
        · exact ih _ _ hp'
    · exact ih _ _ hp

theorem searchLoop_no_match (term : List Char) (ps : List (List Char))
    (h : ∀ p ∈ ps, pyContains term p = false) :
    ∀ count, searchLoop term count ps = [] := by
  induction ps with
  | nil => intro count; simp [searchLoop]
  | cons q ps ih =>
    intro count
    simp only [searchLoop]
    rw [if_neg (by simp [h q (List.mem_cons_self q ps)])]
    exact ih (fun p hp => h p (List.mem_cons_of_mem q hp)) count

/-- **C8.** For every corpus and non-empty search term: at most three
paragraphs are returned; they form an order-preserving sublist of the
paragraph list; each returned paragraph contains the exact search substring;
and when no paragraph matches, the panel shows the informational warning and
no results. -/
theorem C8_keyword_search (text term : List Char) (hterm : term ≠ []) :
    (searchResults text term).length ≤ 3 ∧
    (searchResults text term).Sublist (searchParagraphs text) ∧
    (∀ p ∈ searchResults text term, pyContains term p = true) ∧
    ((∀ p ∈ searchParagraphs text, pyContains term p = false) →
      searchPanel text term = ([], some noMatchMsg)) := by
  refine ⟨?_, searchLoop_sublist _ _ 0,
    fun p hp => searchLoop_mem_contains _ _ 0 p hp, ?_⟩
  · have := searchLoop_length term (searchParagraphs text) 0 (by omega)
    simpa [searchResults] using this
  · intro hnone
    have hres : searchResults text term = [] :=
      searchLoop_no_match _ _ hnone 0
    have hne : term.isEmpty = false := by
      cases term with
      | nil => exact absurd rfl hterm
      | cons c cs => rfl
    simp [searchPanel, hres, hne]

theorem C8_keyword_search_witness :
    (searchResults (("xay").toList) ['a']).length ≤ 3 ∧
    (searchResults (("xay").toList) ['a']).Sublist (searchParagraphs (("xay").toList)) ∧
    (∀ p ∈ searchResults (("xay").toList) ['a'], pyContains ['a'] p = true) ∧
    ((∀ p ∈ searchParagraphs (("xay").toList), pyContains ['a'] p = false) →
      searchPanel (("xay").toList) ['a'] = ([], some noMatchMsg)) :=
  C8_keyword_search (("xay").toList) ['a'] (by decide)

/-! ### Helper lemmas about the literal-backslash paragraph split -/

theorem pySplitAux_ne_nil (pat : List Char) (s : List Char) :
    ∀ k acc, pySplitAux pat k acc s ≠ [] := by
  induction s with
  | nil => intro k acc; cases k <;> simp [pySplitAux]
  | cons c rest ih =>
    intro k acc
    cases k with
    | zero =>
      simp only [pySplitAux]
      split
      · simp
      · exact ih 0 _
    | succ k => simpa only [pySplitAux] using ih k acc

theorem pySplitAux_length_of_contains (pat : List Char) (hpat : pat ≠ []) (s : List Char) :
    ∀ acc, pyContains pat s = true → 2 ≤ (pySplitAux pat 0 acc s).length := by
  induction s with
  | nil =>
    intro acc h
    simp only [pyContains, List.isEmpty_iff] at h
    exact absurd h hpat
  | cons c rest ih =>
    intro acc h
    simp only [pySplitAux]
    split
    · next hpre =>
      have hne := pySplitAux_ne_nil pat rest (pat.length - 1) []
      have := List.length_pos.mpr hne
      simp only [List.length_cons]
      omega
    · next hpre =>
      have h' : pyContains pat rest = true := by
        simp only [pyContains, Bool.or_eq_true] at h
        rcases h with h | h
        · exact absurd h hpre
        · exact h
      exact ih (c :: acc) h'

theorem pyRemoveAux_keeps_backslash_n :
    ∀ (n : Nat) (s : List Char), s.length ≤ n →
      pyContains ['\\', 'n'] s = true →
      pyContains ['\\', 'n'] (pyRemoveAux ['\\', 'r'] 0 s) = true := by
  intro n
  induction n with
  | zero =>
    intro s hs h
    have : s = [] := List.eq_nil_of_length_eq_zero (Nat.le_zero.mp hs)
    subst this
    simp [pyContains] at h
  | succ n ih =>
    intro s hs h
    match s with
    | [] => simp [pyContains] at h
    | c :: rest =>
      by_cases hpre : (['\\', 'r'] : List Char).isPrefixOf (c :: rest) = true
      · match rest with
        | [] => simp [List.isPrefixOf] at hpre
        | r0 :: rest' =>
          simp only [List.isPrefixOf, Bool.and_eq_true, beq_iff_eq] at hpre
          obtain ⟨rfl, rfl, -⟩ := hpre
          have hrem : pyRemoveAux ['\\', 'r'] 0 ('\\' :: 'r' :: rest') =
              pyRemoveAux ['\\', 'r'] 0 rest' := by
            simp [pyRemoveAux, List.isPrefixOf]
          rw [hrem]
          have h' : pyContains ['\\', 'n'] rest' = true := by
            simp [pyContains, List.isPrefixOf] at h
            exact h
          have hlen : rest'.length ≤ n := by
            simp only [List.length_cons] at hs
            omega
          exact ih rest' hlen h'
      · simp only [pyRemoveAux, if_neg hpre]
        simp only [pyContains, Bool.or_eq_true] at h
        rcases h with h | h
        · -- the occurrence is at the head: c = '\\', rest = 'n' :: _
          match rest with
          | [] => simp [List.isPrefixOf] at h
          | r0 :: rest'' =>
            simp only [List.isPrefixOf, Bool.and_eq_true, beq_iff_eq] at h
            obtain ⟨rfl, rfl, -⟩ := h
            have : pyRemoveAux ['\\', 'r'] 0 ('n' :: rest'') =
                'n' :: pyRemoveAux ['\\', 'r'] 0 rest'' := by
              simp [pyRemoveAux, List.isPrefixOf]
            rw [this]
            simp [pyContains, List.isPrefixOf]
        · have hlen : rest.length ≤ n := by
            simp only [List.length_cons] at hs
            omega
          have := ih rest hlen h
          simp [pyContains, this]

/-- **C10.** The keyword search splits on the literal two-character sequence
backslash-`n` (after removing literal backslash-`r` pairs) and falls back to
real newlines only when that split yields fewer than two pieces; hence for any
corpus containing a literal backslash-`n` pair, the paragraphs are the pieces
of the literal split, not the newline split. -/
theorem C10_literal_backslash_paragraphs (text : List Char)
    (h : pyContains ['\\', 'n'] text = true) :
    searchParagraphs text = pySplit ['\\', 'n'] (pyRemove ['\\', 'r'] text) := by
  have h2 : pyContains ['\\', 'n'] (pyRemove ['\\', 'r'] text) = true := by
    unfold pyRemove
    simpa using pyRemoveAux_keeps_backslash_n text.length text le_rfl h
  have hlen : 2 ≤ (pySplit ['\\', 'n'] (pyRemove ['\\', 'r'] text)).length := by
    unfold pySplit
    simpa using pySplitAux_length_of_contains ['\\', 'n'] (by decide) _ [] h2
  unfold searchParagraphs
  rw [if_neg (by omega)]

theorem C10_literal_backslash_paragraphs_witness :
    pyContains ['\\', 'n'] (("a\\nb").toList) = true ∧
    searchParagraphs (("a\\nb").toList) =
      pySplit ['\\', 'n'] (pyRemove ['\\', 'r'] (("a\\nb").toList)) ∧
    searchParagraphs (("a\\nb").toList) = [['a'], ['b']] :=
  ⟨by decide, C10_literal_backslash_paragraphs _ (by decide), by decide⟩

/-- **C9.** When the corpus text file or the locations CSV is absent, the
corresponding loader returns the sentinel `none`, and the app shows the
missing-files error and halts: `process_chapter_stats` is never invoked and no
panel renders. -/
theorem C9_missing_file_halts {M C : Type} (d : Disk M C)
    (h : d.txt_file = none ∨ d.locations_csv = none) :
    (d.txt_file = none → load_text_data d = none) ∧
    (d.locations_csv = none → load_map_data d = none) ∧
    appMain d = AppResult.halted missingFilesMsg := by
  refine ⟨fun h' => h', fun h' => h', ?_⟩
  unfold appMain load_map_data load_text_data
  rcases h with h | h
  · rw [h]
    cases d.locations_csv <;> rfl
  · rw [h]

/-- A disk on which every file is missing. -/
def emptyDisk : Disk Unit Unit :=
  ⟨none, none, none⟩

theorem C9_missing_file_halts_witness :
    (emptyDisk.txt_file = none → load_text_data emptyDisk = none) ∧
    (emptyDisk.locations_csv = none → load_map_data emptyDisk = none) ∧
    appMain emptyDisk = AppResult.halted missingFilesMsg :=
  C9_missing_file_halts emptyDisk (Or.inl rfl)
